import Mathlib

/-!
Verification development for the DenarioApp retrieval subsystem
(`rag_adapter.py`, `graphrag.py`, `arxiv_rag.py`).

Texts are modelled as `List Char` (named `Str`); Python string methods
(`lower`, `in`, slicing, `split`) are embedded as executable functions on
`List Char` with ASCII semantics.  `list(set(xs))` (whose order is
unspecified in Python) is modelled as first-occurrence deduplication.
External library primitives (hash fingerprints from `hashlib`, filesystem
enumeration, HTTP transport) are taken as parameters of the functions that
use them; all repository logic is translated directly from the source.
-/

abbrev Str := List Char

/-- ASCII lowering, modelling Python `str.lower` on ASCII input. -/
def lowerS (s : Str) : Str := s.map Char.toLower

/-- Boolean prefix test on character lists. -/
def isPrefixCh : Str → Str → Bool
  | [], _ => true
  | _ :: _, [] => false
  | a :: as, b :: bs => a = b && isPrefixCh as bs

/-- Does `needle` occur starting at position `i` of `hay`. -/
def substrAt (needle hay : Str) (i : Nat) : Bool :=
  isPrefixCh needle (hay.drop i)

/-- Python `needle in hay`: contiguous substring test. -/
def isSubstr (needle hay : Str) : Bool :=
  (List.range (hay.length + 1)).any (substrAt needle hay)

/-- Python `s.strip()`: remove leading and trailing whitespace. -/
def pyStrip (s : Str) : Str :=
  ((s.dropWhile Char.isWhitespace).reverse.dropWhile Char.isWhitespace).reverse

/-- First-occurrence deduplication, modelling `list(set(xs))` up to order. -/
def dedupFirst : List Str → List Str
  | [] => []
  | x :: xs => x :: (dedupFirst xs).filter (fun y => y ≠ x)

namespace GraphRAG

/-- Is `c` one of the sentence delimiters of `re.split(r'[.!?]+', text)`. -/
def isSentenceDelim (c : Char) : Bool := c = '.' || c = '!' || c = '?'

/-- Embedding of `re.split(r'[.!?]+', text)`: splits at maximal runs of
delimiters, keeping empty fields only at the boundaries. -/
def splitSentences (s : Str) : List Str :=
  (s.foldr
    (fun c st =>
      if isSentenceDelim c then
        (if st.2 then st.1 else [] :: st.1, true)
      else
        (match st.1 with
         | [] => [[c]]
         | h :: t => (c :: h) :: t, false))
    (([[]] : List Str), false)).1

/-- Part of an entity string after the first colon. -/
def afterColon : Str → Str
  | [] => []
  | c :: r => if c = ':' then r else afterColon r

/-- Embedding of `entity.split(':', 1)[1] if ':' in entity else entity`. -/
def entityTerm (e : Str) : Str :=
  if ':' ∈ e then afterColon e else e

/-- Embedding of `GraphRAGIndexer._entities_co_occur`: the two terms appear
together in some sentence, or together in some chunk `text[i:i+100]` for
`i in range(len(text) - 100)`. -/
def entitiesCoOccur (text e1 e2 : Str) : Bool :=
  let t1 := lowerS (entityTerm e1)
  let t2 := lowerS (entityTerm e2)
  ((splitSentences text).any fun sent =>
    isSubstr t1 (lowerS sent) && isSubstr t2 (lowerS sent))
  ||
  ((List.range (text.length - 100)).any fun i =>
    let chunk := (text.drop i).take 100
    isSubstr t1 (lowerS chunk) && isSubstr t2 (lowerS chunk))

/-- One co-occurrence relationship record. -/
structure Rel where
  source : Str
  target : Str
  rtype : Str
  strength : ℚ
deriving DecidableEq

/-- Ordered pairs `(entities[i], entities[j])` with `i < j`, in the nested
loop order of `_extract_relationships`. -/
def relPairs : List Str → List (Str × Str)
  | [] => []
  | e :: rest => rest.map (fun e2 => (e, e2)) ++ relPairs rest

/-- Embedding of `GraphRAGIndexer._extract_relationships`. -/
def extractRelationships (text : Str) (entities : List Str) : List Rel :=
  (relPairs entities).filterMap fun p =>
    if entitiesCoOccur text p.1 p.2 then
      some ⟨p.1, p.2, "co_occurs_with".toList, 1⟩
    else none

/-- Character class `[-._;()/:A-Za-z0-9]` of the DOI pattern. -/
def doiTailChar (c : Char) : Bool :=
  c = '-' || c = '.' || c = '_' || c = ';' || c = '(' || c = ')' ||
  c = '/' || c = ':' || c.isAlpha || c.isDigit

/-- Match of `10\.\d{4,9}/[-._;()/:A-Za-z0-9]+` anchored at the head of `s`,
returning the matched text and the remaining suffix. -/
def matchDoiAt (s : Str) : Option (Str × Str) :=
  if isPrefixCh ('1' :: '0' :: '.' :: []) s then
    let rest := s.drop 3
    let d := rest.takeWhile Char.isDigit
    if 4 ≤ d.length ∧ d.length ≤ 9 then
      match rest.drop d.length with
      | c :: r2 =>
        if c = '/' then
          let tl := r2.takeWhile doiTailChar
          if tl = [] then none
          else some ('1' :: '0' :: '.' :: (d ++ '/' :: tl), r2.drop tl.length)
        else none
      | [] => none
    else none
  else none

/-- Optional version suffix `(?:v\d+)?` at the head of `s`: the matched text
paired with the rest. -/
def matchVersionAt (s : Str) : Str × Str :=
  match s with
  | c :: r =>
    if c = 'v' then
      let d := r.takeWhile Char.isDigit
      if d = [] then ([], s) else ('v' :: d, r.drop d.length)
    else ([], s)
  | [] => ([], s)

/-- Match of `\d{4}\.\d{4,5}(?:v\d+)?` anchored at the head of `s`. -/
def matchArxivAt (s : Str) : Option (Str × Str) :=
  let d1 := s.takeWhile Char.isDigit
  if d1.length < 4 then none
  else
    match (s.drop 4) with
    | c :: r2 =>
      if c = '.' then
        let run := r2.takeWhile Char.isDigit
        if run.length < 4 then none
        else
          let d2 := run.take 5
          let after := r2.drop d2.length
          let v := matchVersionAt after
          some ((s.take 4) ++ '.' :: d2 ++ v.1, v.2)
      else none
    | [] => none

/-- Word character for `\b` (`[A-Za-z0-9_]`, ASCII semantics). -/
def isWordCh (c : Char) : Bool := c.isAlpha || c.isDigit || c = '_'

/-- Match of `\b[A-Z][a-z]+ [A-Z][a-z]+\b` anchored at the head of `s`,
where `prev` is the character just before `s` (for the left boundary). -/
def matchAuthorAt (prev : Option Char) (s : Str) : Option (Str × Str) :=
  match s with
  | c :: rest =>
    if (match prev with | some p => !isWordCh p | none => true) && c.isUpper then
      let l1 := rest.takeWhile Char.isLower
      if l1 = [] then none
      else
        match rest.drop l1.length with
        | sp :: r2 =>
          if sp = ' ' then
            match r2 with
            | c2 :: r3 =>
              if c2.isUpper then
                let l2 := r3.takeWhile Char.isLower
                if l2 = [] then none
                else
                  let after := r3.drop l2.length
                  if (match after with | [] => true | x :: _ => !isWordCh x) then
                    some (c :: l1 ++ sp :: c2 :: l2, after)
                  else none
              else none
            | [] => none
          else none
        | [] => none
    else none
  | [] => none

/-- Fuel-driven scan implementing `re.findall` (leftmost, non-overlapping)
for an anchored matcher. -/
def scanAll (matchAt : Str → Option (Str × Str)) : Nat → Str → List Str
  | 0, _ => []
  | _ + 1, [] => []
  | fuel + 1, s =>
    match matchAt s with
    | some (m, r) => m :: scanAll matchAt fuel r
    | none => scanAll matchAt fuel (s.drop 1)

/-- Fuel-driven `re.findall` scan for a matcher that inspects the previous
character (needed by the `\b` boundary of the author pattern). -/
def scanAllPrev (matchAt : Option Char → Str → Option (Str × Str)) :
    Nat → Option Char → Str → List Str
  | 0, _, _ => []
  | _ + 1, _, [] => []
  | fuel + 1, prev, s =>
    match matchAt prev s with
    | some (m, r) =>
      m :: scanAllPrev matchAt fuel (match m.getLast? with
        | some c => some c
        | none => prev) r
    | none => scanAllPrev matchAt fuel s.head? (s.drop 1)

/-- Fixed vocabulary of technical terms from `_extract_entities`. -/
def techTerms : List Str :=
  ["cosmology".toList, "CMB".toList, "Planck".toList, "CAMB".toList,
   "CLASS".toList, "CLASSY".toList, "dark matter".toList,
   "dark energy".toList, "baryon acoustic oscillations".toList,
   "redshift".toList, "luminosity distance".toList,
   "angular diameter distance".toList, "power spectrum".toList,
   "correlation function".toList, "galaxy clustering".toList,
   "weak lensing".toList, "strong lensing".toList,
   "gravitational waves".toList, "inflation".toList,
   "reionization".toList, "baryogenesis".toList]

/-- Embedding of `GraphRAGIndexer._extract_entities`. -/
def extractEntities (text : Str) : List Str :=
  let dois := scanAll matchDoiAt (text.length + 1) text
  let arxivIds := scanAll matchArxivAt (text.length + 1) text
  let authors := (scanAllPrev matchAuthorAt (text.length + 1) none text).take 10
  let concepts := techTerms.filterMap fun term =>
    if isSubstr (lowerS term) (lowerS text) then
      some ("concept:".toList ++ term)
    else none
  dedupFirst
    (dois.map (fun d => "doi:".toList ++ d) ++
     arxivIds.map (fun a => "arxiv:".toList ++ a) ++
     authors.map (fun a => "author:".toList ++ a) ++
     concepts)

/-- One indexed document, as built by `GraphRAGIndexer._process_document`. -/
structure Document where
  id : Str
  path : Str
  filename : Str
  content : Str
  entities : List Str
  relationships : List Rel
  size : Nat
  ftype : Str
deriving DecidableEq

/-- One filesystem entry as produced by the `rglob` enumeration: path and
name metadata, file size, and `content = none` when reading raises. -/
structure FileRec where
  path : Str
  name : Str
  parts : List Str
  suffix : Str
  size : Nat
  content : Option Str

/-- In-memory index state plus the persisted JSON file contents. -/
structure IndexerState where
  documents : List (Str × Document)
  entities : List (Str × List Str)
  relationships : List Rel
  savedDocuments : List (Str × Document)
  savedEntities : List (Str × List Str)
  savedRelationships : List Rel

/-- Return value of `index_corpus`; absent dictionary keys are `none`. -/
structure IndexResult where
  status : Str
  documents : Nat
  entities : Option Nat
  relationships : Option Nat
deriving DecidableEq

/-- Lookup in an insertion-ordered association list (Python dict access). -/
def assocLookup (k : Str) : List (Str × α) → Option α
  | [] => none
  | (k2, v) :: rest => if k2 = k then some v else assocLookup k rest

/-- Python `d[k] = v` on an insertion-ordered dict: replace in place if the
key exists, else append. -/
def assocSet (k : Str) (v : α) : List (Str × α) → List (Str × α)
  | [] => [(k, v)]
  | (k2, v2) :: rest =>
    if k2 = k then (k2, v) :: rest else (k2, v2) :: assocSet k v rest

/-- Embedding of the inverted-index update: create the entry if missing,
then append `d` to the list under `e`. -/
def entAppend (e d : Str) : List (Str × List Str) → List (Str × List Str)
  | [] => [(e, [d])]
  | (k, v) :: rest =>
    if k = e then (k, v ++ [d]) :: rest else (k, v) :: entAppend e d rest

/-- Embedding of `GraphRAGIndexer._process_document`; `docId` stands for the
external `hashlib.md5(path).hexdigest()[:16]` fingerprint. -/
def processDocument (docId : Str → Str) (f : FileRec) : Option Document :=
  match f.content with
  | none => none
  | some content =>
    let ents := extractEntities content
    some { id := docId f.path
           path := f.path
           filename := f.name
           content := content.take 1000
           entities := ents
           relationships := extractRelationships content ents
           size := content.length
           ftype := f.suffix }

/-- Size and hidden-file filter applied to the enumerated files. -/
def filesToProcess (fs : List FileRec) : List FileRec :=
  fs.filter fun f =>
    f.size < 10 * 1024 * 1024 &&
    !(f.parts.any fun part => isPrefixCh ['.'] part) &&
    !(isPrefixCh ['.'] f.name)

/-- One step of the document-processing loop of `index_corpus`. -/
def indexStep (docId : Str → Str)
    (acc : List (Str × Document) × List (Str × List Str) × List Rel)
    (f : FileRec) :
    List (Str × Document) × List (Str × List Str) × List Rel :=
  match processDocument docId f with
  | none => acc
  | some doc =>
    (assocSet doc.id doc acc.1,
     doc.entities.foldl (fun m e => entAppend e doc.id m) acc.2.1,
     acc.2.2 ++ doc.relationships)

/-- Embedding of `GraphRAGIndexer.index_corpus`: `fs` is the list of files
found by the `rglob` enumeration, `docId` the external path fingerprint. -/
def indexCorpus (docId : Str → Str) (fs : List FileRec) (st : IndexerState)
    (forceRebuild : Bool) : IndexerState × IndexResult :=
  if !forceRebuild ∧ st.documents ≠ [] then
    (st, { status := "skipped".toList
           documents := st.documents.length
           entities := none
           relationships := none })
  else
    let res := (filesToProcess fs).foldl (indexStep docId) ([], [], [])
    ({ documents := res.1
       entities := res.2.1
       relationships := res.2.2
       savedDocuments := res.1
       savedEntities := res.2.1
       savedRelationships := res.2.2 },
     { status := "success".toList
       documents := res.1.length
       entities := some res.2.1.length
       relationships := some res.2.2.length })

/-- One search hit of `GraphRAGIndexer.search`. -/
structure SearchResult where
  document : Document
  score : Nat
  matchList : List Str
deriving DecidableEq

/-- Embedding of the additive score computation in `search`, accumulated in
source order: content preview, then entities, then filename. -/
def docScore (queryLower : Str) (doc : Document) : Nat :=
  let s1 := if isSubstr queryLower (lowerS doc.content) then 0 + 2 else 0
  let s2 := doc.entities.foldl
    (fun s e => if isSubstr queryLower (lowerS e) then s + 1 else s) s1
  if isSubstr queryLower (lowerS doc.filename) then s2 + 1 else s2

/-- Positions at which the lowered query occurs in the lowered content, in
increasing order, as enumerated by the `find` loop of
`_get_match_context`. -/
def matchPositions (contentLower ql : Str) : List Nat :=
  (List.range (contentLower.length + 1)).filter (substrAt ql contentLower)

/-- Embedding of `GraphRAGIndexer._get_match_context`. -/
def matchContext (doc : Document) (query : Str) : List Str :=
  let content := doc.content
  let ql := lowerS query
  ((matchPositions (lowerS content) ql).take 3).map fun pos =>
    let cstart := pos - 100
    let cend := min content.length (pos + query.length + 100)
    pyStrip ((content.drop cstart).take (cend - cstart))

/-- Scored hits in the insertion order of the documents dict, with the
zero-score documents excluded (the accumulation loop of `search`). -/
def scoredResults (docs : List (Str × Document)) (query : Str) :
    List SearchResult :=
  docs.filterMap fun p =>
    let s := docScore (lowerS query) p.2
    if 0 < s then some ⟨p.2, s, matchContext p.2 query⟩ else none

/-- Descending-score order used by `results.sort(key=score, reverse=True)`. -/
def scoreGE (a b : SearchResult) : Prop := b.score ≤ a.score

instance : DecidableRel scoreGE := fun a b => by
  unfold scoreGE
  exact Nat.decLe b.score a.score

instance : IsTotal SearchResult scoreGE :=
  ⟨fun a b => by unfold scoreGE; exact Nat.le_total b.score a.score⟩

instance : IsTrans SearchResult scoreGE :=
  ⟨fun a b c h1 h2 => by
    unfold scoreGE at h1 h2 ⊢
    exact Nat.le_trans h2 h1⟩

/-- Embedding of `GraphRAGIndexer.search`: empty-index guard, scoring loop,
stable descending sort, truncation to `max_results`. -/
def search (docs : List (Str × Document)) (query : Str) (maxResults : Nat) :
    List SearchResult :=
  if docs = [] then []
  else ((scoredResults docs query).insertionSort scoreGE).take maxResults

end GraphRAG

namespace RagAdapter

/-- Closed enumeration of providers, in declaration order. -/
inductive RAGProvider
  | perplexity
  | domain
  | graphrag
  | arxiv
deriving DecidableEq

/-- Enumeration declaration order, which is also the insertion order of the
`self.adapters` dict built in `UnifiedRAGAdapter.__init__`. -/
def providerDeclOrder : List RAGProvider :=
  [.perplexity, .domain, .graphrag, .arxiv]

/-- String value of each enumeration member. -/
def RAGProvider.value : RAGProvider → Str
  | .perplexity => "Perplexity (web)".toList
  | .domain => "Domain (Planck/CAMB/CLASSY)".toList
  | .graphrag => "GraphRAG (local corpus)".toList
  | .arxiv => "arXiv (academic papers)".toList

/-- Embedding of the `RAGProvider(provider)` enum lookup by value, which
raises `ValueError` (here: `none`) on an unrecognized name. -/
def RAGProvider.fromString (s : Str) : Option RAGProvider :=
  providerDeclOrder.find? fun p => p.value = s

/-- Metadata values stored in the `metadata` dict of a result. -/
inductive MetaVal
  | b (v : Bool)
  | s (v : Str)
  | sl (v : List Str)
  | null
deriving DecidableEq

/-- Embedding of the `RetrievalResult` dataclass. -/
structure RetrievalResult where
  title : Str
  url : Str
  doi : Option Str
  content : Str
  score : ℚ
  provider : Str
  metadata : List (Str × MetaVal)
deriving DecidableEq

/-- Process environment at adapter construction time. -/
def Env := Str → Option Str

/-- Embedding of `PerplexityAdapter`: the fields assigned in `__init__`.
The credential is read from the environment once, at construction. -/
structure PerplexityAdapter where
  provider_name : Str
  api_key : Option Str

/-- Embedding of `PerplexityAdapter.__init__(self)` under environment
`env`. -/
def PerplexityAdapter.init (env : Env) : PerplexityAdapter :=
  { provider_name := RAGProvider.perplexity.value
    api_key := env "PERPLEXITY_API_KEY".toList }

/-- Embedding of `PerplexityAdapter.is_available`: checks the stored
`self.api_key` field. -/
def PerplexityAdapter.isAvailable (a : PerplexityAdapter) : Bool :=
  a.api_key.isSome

/-- Embedding of `PerplexityAdapter._fallback_retrieve`: one synthetic
placeholder result; `maxResults` is not used. -/
def PerplexityAdapter.fallbackRetrieve (a : PerplexityAdapter) (query : Str)
    (_maxResults : Nat) : List RetrievalResult :=
  [{ title := "Web Search Fallback".toList
     url := "https://perplexity.ai".toList
     doi := none
     content := "Perplexity search for: ".toList ++ query
     score := 1
     provider := a.provider_name
     metadata := [("fallback".toList, .b true), ("query".toList, .s query)] }]

/-- Embedding of `PerplexityAdapter.retrieve`: both the unavailable branch
and the try branch return `_fallback_retrieve`. -/
def PerplexityAdapter.retrieve (a : PerplexityAdapter) (query : Str)
    (maxResults : Nat) : List RetrievalResult :=
  if !a.isAvailable then a.fallbackRetrieve query maxResults
  else a.fallbackRetrieve query maxResults

/-- Behaviour of one adapter at the moment of a facade call: the value its
`is_available()` returns, and the outcome of its `retrieve` (a raised
exception is `Except.error`). -/
structure AdapterBehavior where
  available : Bool
  results : Str → Nat → Except Str (List RetrievalResult)

/-- Embedding of `UnifiedRAGAdapter`: the `adapters` dict holds one adapter
per enumeration member; each call observes the behaviours in
`adapters`. -/
structure UnifiedRAGAdapter where
  adapters : RAGProvider → AdapterBehavior

/-- A provider argument is either an enumeration member or a raw string
(the `Union[RAGProvider, str]` parameter). -/
def ProviderArg := RAGProvider ⊕ Str

/-- The `isinstance(provider, str)` conversion at the top of `retrieve` and
`retrieve_with_fallback`. -/
def resolveProvider : ProviderArg → Option RAGProvider
  | .inl p => some p
  | .inr s => RAGProvider.fromString s

/-- Embedding of `UnifiedRAGAdapter.get_available_providers`: iterates the
adapters dict in insertion order and keeps the available ones. -/
def UnifiedRAGAdapter.getAvailableProviders (u : UnifiedRAGAdapter) :
    List RAGProvider :=
  providerDeclOrder.filter fun p => (u.adapters p).available

/-- Embedding of `UnifiedRAGAdapter.retrieve`: unknown name gives `[]`,
unavailable provider gives `[]`, an adapter exception is caught and
converted to `[]`. -/
def UnifiedRAGAdapter.retrieve (u : UnifiedRAGAdapter) (query : Str)
    (provider : ProviderArg) (maxResults : Nat) : List RetrievalResult :=
  match resolveProvider provider with
  | none => []
  | some p =>
    if !(u.adapters p).available then []
    else
      match (u.adapters p).results query maxResults with
      | .error _ => []
      | .ok rs => rs

/-- The fallback loop of `retrieve_with_fallback`: first non-empty result
among the listed providers, skipping the preferred one. -/
def tryProviders (u : UnifiedRAGAdapter) (query : Str) (pref : RAGProvider)
    (maxResults : Nat) : List RAGProvider → List RetrievalResult
  | [] => []
  | p :: rest =>
    if p ≠ pref then
      let r := u.retrieve query (.inl p) maxResults
      if r ≠ [] then r else tryProviders u query pref maxResults rest
    else tryProviders u query pref maxResults rest

/-- Embedding of `UnifiedRAGAdapter.retrieve_with_fallback`. -/
def UnifiedRAGAdapter.retrieveWithFallback (u : UnifiedRAGAdapter)
    (query : Str) (preferred : ProviderArg) (maxResults : Nat) :
    List RetrievalResult :=
  match resolveProvider preferred with
  | none => []
  | some pref =>
    let results := u.retrieve query (.inl pref) maxResults
    if results ≠ [] then results
    else tryProviders u query pref maxResults u.getAvailableProviders

end RagAdapter

namespace ArxivRag

/-- One Atom `link` element: the `type` and `href` attributes, which
`link.get` reports as possibly absent. -/
structure ALink where
  linkType : Option Str
  href : Option Str
deriving DecidableEq

/-- One Atom `entry` element with the fields `_parse_arxiv_entry` reads;
`categories` holds the possibly absent `term` attributes. -/
structure AEntry where
  title : Str
  summary : Str
  published : Str
  updated : Str
  authors : List Str
  links : List ALink
  categories : List (Option Str)

/-- Parsed paper record returned by `_parse_arxiv_entry`. -/
structure ArxivPaper where
  title : Str
  authors : List Str
  summary : Str
  published : Str
  updated : Str
  arxivId : Option Str
  pdfUrl : Option Str
  abstractUrl : Option Str
  doi : Option Str
  categories : List Str
  ptype : Str
deriving DecidableEq

/-- One step of the link loop of `_parse_arxiv_entry`: an
`application/pdf` link sets the pdf slot, a `text/html` link sets the
abstract slot. -/
def scanLinkStep (st : Option Str × Option Str) (l : ALink) :
    Option Str × Option Str :=
  if l.linkType = some "application/pdf".toList then (l.href, st.2)
  else if l.linkType = some "text/html".toList then (st.1, l.href)
  else st

/-- The link loop of `_parse_arxiv_entry`: the last `application/pdf` link
sets `pdf_url`, the last `text/html` link sets `abstract_url`. -/
def scanLinks (links : List ALink) : Option Str × Option Str :=
  links.foldl scanLinkStep (none, none)

/-- Match of the group of `abs/(\d+\.\d+(?:v\d+)?)` anchored at the head of
`s`: the captured id. -/
def matchIdAt (s : Str) : Option Str :=
  if isPrefixCh "abs/".toList s then
    let rest := s.drop 4
    let d1 := rest.takeWhile Char.isDigit
    if d1 = [] then none
    else
      match rest.drop d1.length with
      | c :: r2 =>
        if c = '.' then
          let d2 := r2.takeWhile Char.isDigit
          if d2 = [] then none
          else
            let v := GraphRAG.matchVersionAt (r2.drop d2.length)
            some (d1 ++ '.' :: d2 ++ v.1)
        else none
      | [] => none
  else none

/-- Leftmost match of `re.search(r'abs/(\d+\.\d+(?:v\d+)?)', url)`. -/
def findArxivId : Str → Option Str
  | [] => none
  | s@(_ :: rest) =>
    match matchIdAt s with
    | some m => some m
    | none => findArxivId rest

/-- Embedding of `ArxivRetriever._parse_arxiv_entry`. -/
def parseArxivEntry (e : AEntry) : ArxivPaper :=
  let urls := scanLinks e.links
  let arxivId : Option Str :=
    match urls.2 with
    | some u => if u ≠ [] then findArxivId u else none
    | none => none
  { title := pyStrip e.title
    authors := e.authors
    summary := pyStrip e.summary
    published := e.published
    updated := e.updated
    arxivId := arxivId
    pdfUrl := urls.1
    abstractUrl := urls.2
    doi := arxivId.map (fun i => "10.48550/arXiv.".toList ++ i)
    categories := e.categories.filterMap fun c =>
      match c with
      | some t => if t ≠ [] then some t else none
      | none => none
    ptype := "arxiv_paper".toList }

/-- Embedding of `ArxivRetriever.search`: `fetch` is the outcome of the
`try` body up to and including XML entry extraction (`requests.get`,
`raise_for_status`, `ET.fromstring`); any exception raised there is
`Except.error` and the handler returns `[]`. -/
def search (fetch : Except Str (List AEntry)) : List ArxivPaper :=
  match fetch with
  | .error _ => []
  | .ok entries => entries.map parseArxivEntry

end ArxivRag

/-! Specification-side definitions and concrete sample objects used by the
claim theorems, their witnesses and counterexamples. -/

/-- Score formula as the spec states it: 2 for a content-preview match,
plus 1 per entity containing the query, plus 1 for a filename match. -/
def specScore (query : Str) (doc : GraphRAG.Document) : Nat :=
  (if isSubstr (lowerS query) (lowerS doc.content) then 2 else 0) +
  doc.entities.countP (fun e => isSubstr (lowerS query) (lowerS e)) +
  (if isSubstr (lowerS query) (lowerS doc.filename) then 1 else 0)

/-- Amended co-occurrence condition: same sentence, or some window
`text[i:i+100]` with `i < len(text) - 100` (the scan of the code misses
the final window and scans nothing when the text has at most 100
characters). -/
def coOccursAmended (text a b : Str) : Prop :=
  (∃ sent ∈ GraphRAG.splitSentences text,
    isSubstr (lowerS (GraphRAG.entityTerm a)) (lowerS sent) = true ∧
    isSubstr (lowerS (GraphRAG.entityTerm b)) (lowerS sent) = true) ∨
  (∃ i < text.length - 100,
    isSubstr (lowerS (GraphRAG.entityTerm a))
      (lowerS ((text.drop i).take 100)) = true ∧
    isSubstr (lowerS (GraphRAG.entityTerm b))
      (lowerS ((text.drop i).take 100)) = true)

/-- Availability as the spec requires it: computed fresh from the
environment state at the time of the call. -/
def freshPerplexityAvailable (env : RagAdapter.Env) : Bool :=
  (env "PERPLEXITY_API_KEY".toList).isSome

/-- Environment in which the Perplexity credential is set. -/
def envWithKey : RagAdapter.Env :=
  fun k => if k = "PERPLEXITY_API_KEY".toList then some "secret".toList else none

/-- Environment in which the Perplexity credential is absent. -/
def envNoKey : RagAdapter.Env := fun _ => none

/-- A sample non-empty retrieval result used by concrete witnesses. -/
def sampleResult : RagAdapter.RetrievalResult :=
  { title := "t".toList, url := "u".toList, doi := none,
    content := "c".toList, score := 1, provider := "p".toList,
    metadata := [] }

/-- Sample facade state for the fallback witness: the preferred provider
(GraphRAG) is available but returns nothing, Perplexity is unavailable,
Domain and arXiv are available and return a result. -/
def sampleUnified : RagAdapter.UnifiedRAGAdapter :=
  ⟨fun p =>
    match p with
    | .perplexity => ⟨false, fun _ _ => .ok []⟩
    | .domain => ⟨true, fun _ _ => .ok [sampleResult]⟩
    | .graphrag => ⟨true, fun _ _ => .ok []⟩
    | .arxiv => ⟨true, fun _ _ => .ok [sampleResult]⟩⟩

/-- Sample facade state in which the Domain adapter raises. -/
def raisingUnified : RagAdapter.UnifiedRAGAdapter :=
  ⟨fun p =>
    match p with
    | .domain => ⟨true, fun _ _ => .error "boom".toList⟩
    | _ => ⟨true, fun _ _ => .ok [sampleResult]⟩⟩

/-- A sample indexed document. -/
def sampleDoc : GraphRAG.Document :=
  { id := "id".toList, path := "p".toList, filename := "f".toList,
    content := [], entities := [], relationships := [], size := 0,
    ftype := ".md".toList }

/-- Indexer state whose in-memory documents mapping is non-empty. -/
def sampleState : GraphRAG.IndexerState :=
  { documents := [("id".toList, sampleDoc)], entities := [],
    relationships := [], savedDocuments := [("id".toList, sampleDoc)],
    savedEntities := [], savedRelationships := [] }

/-- Text for the co-occurrence counterexample: 102 characters, the two
concept terms lie together inside the final 100-character window (and in
no earlier window, and in no single sentence). -/
def cexText : Str := List.replicate 88 'z' ++ "CMB. inflation".toList

/-- Entity `concept:CMB`. -/
def cmbEnt : Str := "concept:CMB".toList

/-- Entity `concept:inflation`. -/
def inflEnt : Str := "concept:inflation".toList

/-- Sample arXiv entry whose abstract link holds the id `2301.00001` and
whose PDF link holds a different version string. -/
def sampleEntry : ArxivRag.AEntry :=
  { title := " A Paper ".toList, summary := "s".toList,
    published := "2023-01-01".toList, updated := "2023-01-02".toList,
    authors := ["A B".toList],
    links := [⟨some "application/pdf".toList,
               some "http://arxiv.org/pdf/2301.00001v9".toList⟩,
              ⟨some "text/html".toList,
               some "http://arxiv.org/abs/2301.00001".toList⟩],
    categories := [some "astro-ph.CO".toList] }

/-! Helper lemmas. -/

theorem isPrefixCh_iff (n h : Str) : isPrefixCh n h = true ↔ n <+: h := by
  induction n generalizing h with
  | nil => simp [isPrefixCh]
  | cons a as ih =>
    cases h with
    | nil => simp [isPrefixCh]
    | cons b bs =>
      simp only [isPrefixCh, Bool.and_eq_true, decide_eq_true_eq, ih,
        List.cons_prefix_cons]

theorem isPrefixCh_append_self (n rest : Str) :
    isPrefixCh n (n ++ rest) = true := by
  induction n with
  | nil => simp [isPrefixCh]
  | cons a as ih => simp [isPrefixCh, ih]

/-! Claim C8. -/

/-- C8: `search` on an indexer whose documents mapping is empty returns an
empty list for every query string, including the empty string, and for
every `max_results`. -/
theorem search_empty_index (query : Str) (maxResults : Nat) :
    GraphRAG.search [] query maxResults = [] := by
  simp [GraphRAG.search]

/-! Claim C10. -/

/-- C10: for every environment, query and `max_results` (including 0),
`PerplexityAdapter.retrieve` returns exactly the singleton placeholder
result with title `Web Search Fallback`, score 1 and `fallback = true`
metadata; `max_results` never changes this. -/
theorem perplexity_retrieve_singleton (env : RagAdapter.Env) (query : Str)
    (maxResults : Nat) :
    (RagAdapter.PerplexityAdapter.init env).retrieve query maxResults =
      [{ title := "Web Search Fallback".toList
         url := "https://perplexity.ai".toList
         doi := none
         content := "Perplexity search for: ".toList ++ query
         score := 1
         provider := RagAdapter.RAGProvider.perplexity.value
         metadata := [("fallback".toList, .b true),
                      ("query".toList, .s query)] }] ∧
    ((RagAdapter.PerplexityAdapter.init env).retrieve query maxResults).length
      = 1 := by
  have hEq : (RagAdapter.PerplexityAdapter.init env).retrieve query maxResults
      = [{ title := "Web Search Fallback".toList
           url := "https://perplexity.ai".toList
           doi := none
           content := "Perplexity search for: ".toList ++ query
           score := 1
           provider := RagAdapter.RAGProvider.perplexity.value
           metadata := [("fallback".toList, .b true),
                        ("query".toList, .s query)] }] := by
    cases h : (RagAdapter.PerplexityAdapter.init env).isAvailable <;>
      simp [RagAdapter.PerplexityAdapter.retrieve, h,
        RagAdapter.PerplexityAdapter.fallbackRetrieve,
        RagAdapter.PerplexityAdapter.init]
  exact ⟨hEq, by rw [hEq]; rfl⟩

/-! Claim C7. -/

/-- C7 counterexample: the claim asserts that a second `is_available` call
reflects the credential state at that call's time.  For an adapter built
while the credential was set, `is_available` keeps answering from the
`api_key` captured in `__init__`, and disagrees with the fresh availability
of an environment in which the credential has been removed. -/
theorem perplexity_availability_not_fresh :
    (RagAdapter.PerplexityAdapter.init envWithKey).isAvailable = true ∧
    freshPerplexityAvailable envNoKey = false ∧
    (RagAdapter.PerplexityAdapter.init envWithKey).isAvailable ≠
      freshPerplexityAvailable envNoKey := by
  refine ⟨by decide, by decide, by decide⟩

/-- C7 amended: `is_available` reflects the environment captured at adapter
construction time (the credential is read once in `__init__`), so for every
construction environment it equals the fresh availability of that same
environment; a state change after construction is not observed. -/
theorem perplexity_availability_at_construction (env : RagAdapter.Env) :
    (RagAdapter.PerplexityAdapter.init env).isAvailable =
      freshPerplexityAvailable env := by
  simp [RagAdapter.PerplexityAdapter.init,
    RagAdapter.PerplexityAdapter.isAvailable, freshPerplexityAvailable]

/-! Claim C6. -/

/-- C6: no exception crosses the retrieval-core boundary: an exception in
the HTTP or XML layer of the arXiv search yields `[]`; an unrecognized
provider name at the facade yields `[]`; an exception raised by an adapter
retrieve is caught by the facade and converted to `[]`. -/
theorem retrieval_failure_containment :
    (∀ e : Str, ArxivRag.search (.error e) = []) ∧
    (∀ (u : RagAdapter.UnifiedRAGAdapter) (q s : Str) (m : Nat),
      RagAdapter.RAGProvider.fromString s = none →
      u.retrieve q (.inr s) m = []) ∧
    (∀ (u : RagAdapter.UnifiedRAGAdapter) (q : Str)
      (p : RagAdapter.RAGProvider) (m : Nat) (e : Str),
      (u.adapters p).results q m = .error e →
      u.retrieve q (.inl p) m = []) := by
  refine ⟨fun e => rfl, ?_, ?_⟩
  · intro u q s m h
    simp [RagAdapter.UnifiedRAGAdapter.retrieve, RagAdapter.resolveProvider, h]
  · intro u q p m e h
    cases hav : (u.adapters p).available <;>
      simp [RagAdapter.UnifiedRAGAdapter.retrieve,
        RagAdapter.resolveProvider, hav, h]

/-- C6 witness: concrete instances of the three containment facts. -/
theorem retrieval_failure_containment_witness :
    ArxivRag.search (.error "timeout".toList) = [] ∧
    sampleUnified.retrieve "q".toList (.inr "Nope".toList) 5 = [] ∧
    raisingUnified.retrieve "q".toList (.inl .domain) 5 = [] := by
  refine ⟨retrieval_failure_containment.1 "timeout".toList,
    retrieval_failure_containment.2.1 sampleUnified "q".toList "Nope".toList 5
      (by decide),
    retrieval_failure_containment.2.2 raisingUnified "q".toList .domain 5
      "boom".toList rfl⟩

/-! Claim C1. -/

theorem tryProviders_eq_find (u : RagAdapter.UnifiedRAGAdapter) (q : Str)
    (pref : RagAdapter.RAGProvider) (m : Nat)
    (l : List RagAdapter.RAGProvider) :
    RagAdapter.tryProviders u q pref m l =
      match (l.filter (fun p => p ≠ pref)).find?
          (fun p => !(u.retrieve q (.inl p) m).isEmpty) with
      | some p => u.retrieve q (.inl p) m
      | none => [] := by
  induction l with
  | nil => rfl
  | cons p rest ih =>
    by_cases hp : p = pref
    · simp only [RagAdapter.tryProviders, hp, ne_eq, not_true_eq_false,
        if_false, List.filter_cons, decide_not, decide_True, Bool.not_true]
      simpa [hp] using ih
    · rw [RagAdapter.tryProviders]
      rw [if_pos hp]
      have hfil : (p :: rest).filter (fun x => x ≠ pref) =
          p :: rest.filter (fun x => x ≠ pref) := by
        simp [List.filter_cons, hp]
      rw [hfil]
      cases hr : (u.retrieve q (.inl p) m).isEmpty with
      | true =>
        have hnil : u.retrieve q (.inl p) m = [] :=
          List.isEmpty_iff.mp hr
        rw [List.find?_cons_of_neg _ (by simp [hr])]
        simp only [hnil, ne_eq, not_true_eq_false, if_false]
        exact ih
      | false =>
        have hne : u.retrieve q (.inl p) m ≠ [] := by
          intro hc
          rw [hc] at hr
          simp at hr
        rw [List.find?_cons_of_pos _ (by simp [hr])]
        simp [hne]

/-- C1: if the preferred provider returns an empty list, then
`retrieve_with_fallback` returns the first non-empty result obtained from
the remaining available providers in enumeration declaration order; the
result is non-empty whenever some other available provider has results; it
is empty only when every available provider yields nothing. -/
theorem retrieveWithFallback_first_nonempty
    (u : RagAdapter.UnifiedRAGAdapter) (q : Str)
    (pref : RagAdapter.RAGProvider) (m : Nat)
    (hpref : u.retrieve q (.inl pref) m = []) :
    (u.retrieveWithFallback q (.inl pref) m =
      match (u.getAvailableProviders.filter (fun p => p ≠ pref)).find?
          (fun p => !(u.retrieve q (.inl p) m).isEmpty) with
      | some p => u.retrieve q (.inl p) m
      | none => []) ∧
    (∀ p ∈ u.getAvailableProviders, p ≠ pref →
      u.retrieve q (.inl p) m ≠ [] →
      u.retrieveWithFallback q (.inl pref) m ≠ []) ∧
    (u.retrieveWithFallback q (.inl pref) m = [] →
      ∀ p ∈ u.getAvailableProviders, u.retrieve q (.inl p) m = []) := by
  have hmain : u.retrieveWithFallback q (.inl pref) m =
      RagAdapter.tryProviders u q pref m u.getAvailableProviders := by
    simp [RagAdapter.UnifiedRAGAdapter.retrieveWithFallback,
      RagAdapter.resolveProvider, hpref]
  have heq := tryProviders_eq_find u q pref m u.getAvailableProviders
  refine ⟨hmain.trans heq, ?_, ?_⟩
  · intro p hp hppref hpne
    rw [hmain, heq]
    have hmem : p ∈ u.getAvailableProviders.filter (fun x => x ≠ pref) := by
      simp [List.mem_filter, hp, hppref]
    have hpred : (!(u.retrieve q (.inl p) m).isEmpty) = true := by
      simp [List.isEmpty_iff, hpne]
    cases hfind : (u.getAvailableProviders.filter (fun x => x ≠ pref)).find?
        (fun x => !(u.retrieve q (.inl x) m).isEmpty) with
    | none =>
      exact absurd hpred (List.find?_eq_none.mp hfind p hmem)
    | some p0 =>
      have hp0 := List.find?_some hfind
      simp only [Bool.not_eq_true] at hp0
      have : u.retrieve q (.inl p0) m ≠ [] := by
        intro hc
        rw [hc] at hp0
        simp at hp0
      simpa using this
  · intro hres p hp
    by_cases hppref : p = pref
    · rw [hppref]
      exact hpref
    · rw [hmain, heq] at hres
      cases hfind : (u.getAvailableProviders.filter (fun x => x ≠ pref)).find?
          (fun x => !(u.retrieve q (.inl x) m).isEmpty) with
      | none =>
        have hmem : p ∈ u.getAvailableProviders.filter (fun x => x ≠ pref) := by
          simp [List.mem_filter, hp, hppref]
        have h1 := List.find?_eq_none.mp hfind p hmem
        have h2 : (u.retrieve q (Sum.inl p) m).isEmpty = true := by
          simpa using h1
        exact List.isEmpty_iff.mp h2
      | some p0 =>
        exfalso
        simp only [hfind] at hres
        have hp0 := List.find?_some hfind
        rw [hres] at hp0
        simp at hp0

/-- C1 witness: with the preferred GraphRAG provider available but empty,
the facade falls back to the first other available provider in declaration
order (Domain) and returns its non-empty result. -/
theorem retrieveWithFallback_first_nonempty_witness :
    sampleUnified.retrieve "q".toList (.inl .graphrag) 3 = [] ∧
    sampleUnified.retrieveWithFallback "q".toList (.inl .graphrag) 3 =
      sampleUnified.retrieve "q".toList (.inl .domain) 3 ∧
    sampleUnified.retrieveWithFallback "q".toList (.inl .graphrag) 3 ≠ [] := by
  have h := retrieveWithFallback_first_nonempty sampleUnified "q".toList
    .graphrag 3 rfl
  refine ⟨rfl, ?_, ?_⟩
  · rw [h.1]
    rfl
  · exact h.2.1 .domain (by decide) (by decide) (by decide)

/-! Claim C5. -/

/-- C5 counterexample: the claim asserts that `index_corpus` always returns
a mapping containing entities and relationships counts.  On a non-empty
in-memory index with `force_rebuild = False`, the returned mapping is
`{status: skipped, documents: 1}` and has no entities or relationships
entries. -/
theorem index_corpus_skip_missing_counts :
    (GraphRAG.indexCorpus (fun p => p) [] sampleState false).2.status =
      "skipped".toList ∧
    (GraphRAG.indexCorpus (fun p => p) [] sampleState false).2.documents = 1 ∧
    (GraphRAG.indexCorpus (fun p => p) [] sampleState false).2.entities =
      none ∧
    (GraphRAG.indexCorpus (fun p => p) [] sampleState false).2.relationships =
      none := by
  refine ⟨by decide, by decide, by decide, by decide⟩

/-- C5 amended: when the in-memory documents mapping is non-empty and
`force_rebuild` is false, `index_corpus` returns immediately with
`status = skipped` and the documents count only (no entities or
relationships counts), independently of the filesystem and with the
in-memory and persisted state unchanged; a second call therefore also
returns `skipped`; a rebuilding call returns `status = success` together
with documents, entities and relationships counts. -/
theorem index_corpus_contract_amended :
    (∀ (docId : Str → Str) (fs : List GraphRAG.FileRec)
      (st : GraphRAG.IndexerState), st.documents ≠ [] →
      GraphRAG.indexCorpus docId fs st false =
        (st, { status := "skipped".toList
               documents := st.documents.length
               entities := none
               relationships := none })) ∧
    (∀ (docId docId2 : Str → Str) (fs fs2 : List GraphRAG.FileRec)
      (st : GraphRAG.IndexerState), st.documents ≠ [] →
      (GraphRAG.indexCorpus docId2 fs2
        (GraphRAG.indexCorpus docId fs st false).1 false).2.status =
        "skipped".toList) ∧
    (∀ (docId : Str → Str) (fs : List GraphRAG.FileRec)
      (st : GraphRAG.IndexerState) (force : Bool),
      force = true ∨ st.documents = [] →
      (GraphRAG.indexCorpus docId fs st force).2.status = "success".toList ∧
      (GraphRAG.indexCorpus docId fs st force).2.entities ≠ none ∧
      (GraphRAG.indexCorpus docId fs st force).2.relationships ≠ none) := by
  have hskip : ∀ (docId : Str → Str) (fs : List GraphRAG.FileRec)
      (st : GraphRAG.IndexerState), st.documents ≠ [] →
      GraphRAG.indexCorpus docId fs st false =
        (st, { status := "skipped".toList
               documents := st.documents.length
               entities := none
               relationships := none }) := by
    intro docId fs st h
    simp [GraphRAG.indexCorpus, h]
  refine ⟨hskip, ?_, ?_⟩
  · intro docId docId2 fs fs2 st h
    rw [hskip docId fs st h]
    rw [hskip docId2 fs2 st h]
  · intro docId fs st force h
    cases force with
    | true => refine ⟨by simp [GraphRAG.indexCorpus], by simp [GraphRAG.indexCorpus], by simp [GraphRAG.indexCorpus]⟩
    | false =>
      have hdoc : st.documents = [] := h.resolve_left (by simp)
      refine ⟨by simp [GraphRAG.indexCorpus, hdoc],
        by simp [GraphRAG.indexCorpus, hdoc],
        by simp [GraphRAG.indexCorpus, hdoc]⟩

/-- C5 witness: concrete instances of the amended contract on a one-document
state and on a forced rebuild over an empty filesystem. -/
theorem index_corpus_contract_amended_witness :
    GraphRAG.indexCorpus (fun p => p) [] sampleState false =
      (sampleState,
        { status := "skipped".toList, documents := 1,
          entities := none, relationships := none }) ∧
    (GraphRAG.indexCorpus (fun p => p) []
      (GraphRAG.indexCorpus (fun p => p) [] sampleState false).1
        false).2.status = "skipped".toList ∧
    (GraphRAG.indexCorpus (fun p => p) [] sampleState true).2.status =
      "success".toList := by
  refine ⟨index_corpus_contract_amended.1 (fun p => p) [] sampleState
      (by decide),
    index_corpus_contract_amended.2.1 (fun p => p) (fun p => p) [] []
      sampleState (by decide),
    (index_corpus_contract_amended.2.2 (fun p => p) [] sampleState true
      (Or.inl rfl)).1⟩

/-! Claim C3. -/

theorem filter_orderedInsert_score (s : Nat) (a : GraphRAG.SearchResult)
    (l : List GraphRAG.SearchResult) :
    (l.orderedInsert GraphRAG.scoreGE a).filter (fun r => r.score = s) =
      if a.score = s then a :: l.filter (fun r => r.score = s)
      else l.filter (fun r => r.score = s) := by
  induction l with
  | nil =>
    by_cases h : a.score = s <;> simp [List.orderedInsert, h]
  | cons b t ih =>
    rw [List.orderedInsert]
    by_cases hab : GraphRAG.scoreGE a b
    · rw [if_pos hab]
      by_cases h : a.score = s <;> simp [List.filter_cons, h]
    · rw [if_neg hab]
      have hlt : a.score < b.score := by
        have : ¬ b.score ≤ a.score := hab
        omega
      by_cases h : a.score = s
      · have hb : ¬ b.score = s := by omega
        simp [List.filter_cons, hb, ih, h]
      · simp [List.filter_cons, ih, h]

theorem filter_insertionSort_score (s : Nat) :
    ∀ l : List GraphRAG.SearchResult,
      (l.insertionSort GraphRAG.scoreGE).filter (fun r => r.score = s) =
        l.filter (fun r => r.score = s)
  | [] => rfl
  | a :: t => by
    rw [List.insertionSort, filter_orderedInsert_score,
      filter_insertionSort_score s t]
    by_cases h : a.score = s <;> simp [List.filter_cons, h]

theorem foldl_count_aux (p : Str → Bool) (l : List Str) :
    ∀ init : Nat,
      l.foldl (fun s e => if p e then s + 1 else s) init = init + l.countP p := by
  induction l with
  | nil => intro init; simp
  | cons e t ih =>
    intro init
    set_option linter.unnecessarySeqFocus false in
    by_cases h : p e <;> simp [List.foldl_cons, h, ih, List.countP_cons] <;>
      omega

theorem docScore_eq_specScore (q : Str) (doc : GraphRAG.Document) :
    GraphRAG.docScore (lowerS q) doc = specScore q doc := by
  by_cases h1 : isSubstr (lowerS q) (lowerS doc.content) <;>
    by_cases h2 : isSubstr (lowerS q) (lowerS doc.filename) <;>
      simp [GraphRAG.docScore, specScore, h1, h2, foldl_count_aux]

theorem scoredResults_pos (docs : List (Str × GraphRAG.Document)) (q : Str) :
    ∀ r ∈ GraphRAG.scoredResults docs q, 0 < r.score := by
  intro r hr
  simp only [GraphRAG.scoredResults, List.mem_filterMap] at hr
  obtain ⟨p, _, hcond⟩ := hr
  by_cases h : 0 < GraphRAG.docScore (lowerS q) p.2
  · simp only [if_pos h, Option.some_inj] at hcond
    rw [← hcond]
    exact h
  · simp [if_neg h] at hcond

/-- C3: `search` returns a prefix of length at most `max_results` of a list
that is a permutation of the positively scored documents in insertion
order, is sorted by descending score, and preserves the relative insertion
order inside every score class (stable ties); the score of a document is
the additive case-insensitive formula 2 for a content-preview match, plus
1 per matching entity, plus 1 for a filename match.  In particular a
score: 3 document precedes a score: 1 document. -/
theorem search_spec (docs : List (Str × GraphRAG.Document)) (q : Str)
    (m : Nat) :
    ∃ sorted : List GraphRAG.SearchResult,
      GraphRAG.search docs q m = sorted.take m ∧
      sorted.Perm (GraphRAG.scoredResults docs q) ∧
      sorted.Pairwise (fun a b => b.score ≤ a.score) ∧
      (∀ s : Nat, sorted.filter (fun r => r.score = s) =
        (GraphRAG.scoredResults docs q).filter (fun r => r.score = s)) ∧
      (∀ r ∈ sorted, 0 < r.score) ∧
      (GraphRAG.search docs q m).length ≤ m ∧
      (∀ pd ∈ docs, GraphRAG.docScore (lowerS q) pd.2 = specScore q pd.2) := by
  refine ⟨(GraphRAG.scoredResults docs q).insertionSort GraphRAG.scoreGE,
    ?_, ?_, ?_, ?_, ?_, ?_, ?_⟩
  · by_cases h : docs = []
    · subst h
      simp [GraphRAG.search, GraphRAG.scoredResults]
    · simp [GraphRAG.search, h]
  · exact List.perm_insertionSort _ _
  · exact (List.sorted_insertionSort GraphRAG.scoreGE
      (GraphRAG.scoredResults docs q)).imp (fun h => h)
  · intro s
    exact filter_insertionSort_score s _
  · intro r hr
    exact scoredResults_pos docs q r
      ((List.perm_insertionSort GraphRAG.scoreGE
        (GraphRAG.scoredResults docs q)).mem_iff.mp hr)
  · by_cases h : docs = []
    · subst h
      simp [GraphRAG.search]
    · simp only [GraphRAG.search, if_neg h]
      exact List.length_take_le m _
  · intro pd _
    exact docScore_eq_specScore q pd.2

/-! Claim C9. -/

theorem assocLookup_set_isSome {α : Type} (k k2 : Str) (v : α)
    (mm : List (Str × α))
    (h : (GraphRAG.assocLookup k mm).isSome = true ∨ k = k2) :
    (GraphRAG.assocLookup k (GraphRAG.assocSet k2 v mm)).isSome = true := by
  induction mm with
  | nil =>
    rcases h with h | h
    · simp [GraphRAG.assocLookup] at h
    · simp [GraphRAG.assocSet, GraphRAG.assocLookup, h]
  | cons p rest ih =>
    obtain ⟨k3, v3⟩ := p
    by_cases h32 : k3 = k2
    · simp only [GraphRAG.assocSet, if_pos h32, GraphRAG.assocLookup]
      by_cases h3k : k3 = k
      · simp [h3k]
      · simp only [if_neg h3k]
        rcases h with h | h
        · simpa [GraphRAG.assocLookup, h3k] using h
        · exact absurd (by rw [h32, ← h]) h3k
    · simp only [GraphRAG.assocSet, if_neg h32, GraphRAG.assocLookup]
      by_cases h3k : k3 = k
      · simp [h3k]
      · simp only [if_neg h3k]
        apply ih
        rcases h with h | h
        · left
          simpa [GraphRAG.assocLookup, h3k] using h
        · right
          exact h
  
theorem mem_assocSet {α : Type} (k : Str) (v : α) (mm : List (Str × α)) :
    ∀ pr ∈ GraphRAG.assocSet k v mm, pr = (k, v) ∨ pr ∈ mm := by
  induction mm with
  | nil => intro pr hpr; simp [GraphRAG.assocSet] at hpr; left; simpa using hpr
  | cons p rest ih =>
    obtain ⟨k3, v3⟩ := p
    intro pr hpr
    by_cases h3 : k3 = k
    · rw [GraphRAG.assocSet, if_pos h3] at hpr
      rcases List.mem_cons.mp hpr with h | h
      · left
        rw [h, h3]
      · right
        exact List.mem_cons_of_mem _ h
    · rw [GraphRAG.assocSet, if_neg h3] at hpr
      rcases List.mem_cons.mp hpr with h | h
      · right
        rw [h]
        exact List.mem_cons_self _ _
      · rcases ih pr h with h2 | h2
        · left; exact h2
        · right; exact List.mem_cons_of_mem _ h2

theorem mem_entAppend (e d : Str) (mm : List (Str × List Str)) :
    ∀ pr ∈ GraphRAG.entAppend e d mm, ∀ x ∈ pr.2, x = d ∨ ∃ q ∈ mm, x ∈ q.2 := by
  induction mm with
  | nil =>
    intro pr hpr x hx
    simp [GraphRAG.entAppend] at hpr
    rw [hpr] at hx
    simp at hx
    left
    exact hx
  | cons p rest ih =>
    obtain ⟨k, v⟩ := p
    intro pr hpr x hx
    by_cases hk : k = e
    · rw [GraphRAG.entAppend, if_pos hk] at hpr
      rcases List.mem_cons.mp hpr with h | h
      · rw [h] at hx
        rcases List.mem_append.mp hx with h2 | h2
        · right
          exact ⟨(k, v), List.mem_cons_self _ _, h2⟩
        · left
          simpa using h2
      · right
        exact ⟨pr, List.mem_cons_of_mem _ h, hx⟩
    · rw [GraphRAG.entAppend, if_neg hk] at hpr
      rcases List.mem_cons.mp hpr with h | h
      · right
        refine ⟨(k, v), List.mem_cons_self _ _, ?_⟩
        rw [← h]
        exact hx
      · rcases ih pr h x hx with h2 | ⟨q, hq, hxq⟩
        · left; exact h2
        · right; exact ⟨q, List.mem_cons_of_mem _ hq, hxq⟩

theorem mem_entAppend_foldl (d : Str) (es : List Str) :
    ∀ (mm : List (Str × List Str)),
      ∀ pr ∈ es.foldl (fun m e => GraphRAG.entAppend e d m) mm,
        ∀ x ∈ pr.2, x = d ∨ ∃ q ∈ mm, x ∈ q.2 := by
  induction es with
  | nil =>
    intro mm pr hpr x hx
    right
    exact ⟨pr, hpr, hx⟩
  | cons e t ih =>
    intro mm pr hpr x hx
    rcases ih (GraphRAG.entAppend e d mm) pr (by simpa using hpr) x hx with h | ⟨q, hq, hxq⟩
    · left; exact h
    · exact mem_entAppend e d mm q hq x hxq

theorem processDocument_entities (docId : Str → Str) (f : GraphRAG.FileRec)
    (doc : GraphRAG.Document) (h : GraphRAG.processDocument docId f = some doc) :
    ∃ c : Str, doc.entities = GraphRAG.extractEntities c := by
  unfold GraphRAG.processDocument at h
  cases hc : f.content with
  | none => rw [hc] at h; simp at h
  | some c =>
    rw [hc] at h
    simp only [Option.some_inj] at h
    exact ⟨c, by rw [← h]⟩

theorem indexFold_inv (docId : Str → Str) (files : List GraphRAG.FileRec) :
    ∀ acc : List (Str × GraphRAG.Document) × List (Str × List Str) ×
      List GraphRAG.Rel,
      (∀ pr ∈ acc.2.1, ∀ x ∈ pr.2, (GraphRAG.assocLookup x acc.1).isSome = true) →
      (∀ pr ∈ acc.1, ∃ c : Str, pr.2.entities = GraphRAG.extractEntities c) →
      (∀ pr ∈ (files.foldl (GraphRAG.indexStep docId) acc).2.1,
        ∀ x ∈ pr.2,
          (GraphRAG.assocLookup x
            (files.foldl (GraphRAG.indexStep docId) acc).1).isSome = true) ∧
      (∀ pr ∈ (files.foldl (GraphRAG.indexStep docId) acc).1,
        ∃ c : Str, pr.2.entities = GraphRAG.extractEntities c) := by
  induction files with
  | nil => intro acc h1 h2; exact ⟨h1, h2⟩
  | cons f rest ih =>
    intro acc h1 h2
    rw [List.foldl_cons]
    cases hd : GraphRAG.processDocument docId f with
    | none =>
      have hstep : GraphRAG.indexStep docId acc f = acc := by
        unfold GraphRAG.indexStep
        rw [hd]
      rw [hstep]
      exact ih acc h1 h2
    | some doc =>
      have hstep : GraphRAG.indexStep docId acc f =
          (GraphRAG.assocSet doc.id doc acc.1,
           doc.entities.foldl (fun m e => GraphRAG.entAppend e doc.id m) acc.2.1,
           acc.2.2 ++ doc.relationships) := by
        unfold GraphRAG.indexStep
        rw [hd]
      rw [hstep]
      apply ih
      · intro pr hpr x hx
        rcases mem_entAppend_foldl doc.id doc.entities acc.2.1 pr hpr x hx with
          h | ⟨q, hq, hxq⟩
        · exact assocLookup_set_isSome x doc.id doc acc.1 (Or.inr h)
        · exact assocLookup_set_isSome x doc.id doc acc.1
            (Or.inl (h1 q hq x hxq))
      · intro pr hpr
        rcases mem_assocSet doc.id doc acc.1 pr hpr with h | h
        · rw [h]
          exact processDocument_entities docId f doc hd
        · exact h2 pr h

theorem count_filter_ne (y x : Str) (l : List Str) (h : y ≠ x) :
    (l.filter (fun z => z ≠ x)).count y = l.count y := by
  induction l with
  | nil => rfl
  | cons a t ih =>
    simp only [ne_eq, decide_not] at ih ⊢
    by_cases hax : a = x
    · have hya : y ≠ a := by rw [hax]; exact h
      simp [List.filter_cons, hax, List.count_cons, hya, ih, Ne.symm h]
    · simp [List.filter_cons, hax, List.count_cons, ih]

theorem count_dedupFirst (y : Str) (l : List Str) :
    (dedupFirst l).count y = if y ∈ l then 1 else 0 := by
  induction l with
  | nil => simp [dedupFirst]
  | cons x xs ih =>
    by_cases hyx : y = x
    · subst hyx
      have hz : ((dedupFirst xs).filter (fun z => z ≠ y)).count y = 0 := by
        apply List.count_eq_zero.mpr
        simp [List.mem_filter]
      simp only [ne_eq, decide_not] at hz
      simp [dedupFirst, List.count_cons, hz]
    · simp [dedupFirst, List.count_cons, hyx, count_filter_ne y x _ hyx, ih]

theorem extract_concept_count_le (text term : Str) :
    (GraphRAG.extractEntities text).count ("concept:".toList ++ term) ≤ 1 := by
  unfold GraphRAG.extractEntities
  rw [count_dedupFirst]
  split <;> omega

theorem extract_concept_count_eq (text term : Str)
    (hterm : term ∈ GraphRAG.techTerms)
    (hsub : isSubstr (lowerS term) (lowerS text) = true) :
    (GraphRAG.extractEntities text).count ("concept:".toList ++ term) = 1 := by
  unfold GraphRAG.extractEntities
  rw [count_dedupFirst, if_pos]
  refine List.mem_append.mpr (Or.inr ?_)
  exact List.mem_filterMap.mpr ⟨term, hterm, by rw [if_pos hsub]⟩

theorem indexCorpus_rebuild (docId : Str → Str) (fs : List GraphRAG.FileRec)
    (st : GraphRAG.IndexerState) (force : Bool)
    (h : force = true ∨ st.documents = []) :
    GraphRAG.indexCorpus docId fs st force =
      ({ documents :=
           ((GraphRAG.filesToProcess fs).foldl (GraphRAG.indexStep docId)
             ([], [], [])).1
         entities :=
           ((GraphRAG.filesToProcess fs).foldl (GraphRAG.indexStep docId)
             ([], [], [])).2.1
         relationships :=
           ((GraphRAG.filesToProcess fs).foldl (GraphRAG.indexStep docId)
             ([], [], [])).2.2
         savedDocuments :=
           ((GraphRAG.filesToProcess fs).foldl (GraphRAG.indexStep docId)
             ([], [], [])).1
         savedEntities :=
           ((GraphRAG.filesToProcess fs).foldl (GraphRAG.indexStep docId)
             ([], [], [])).2.1
         savedRelationships :=
           ((GraphRAG.filesToProcess fs).foldl (GraphRAG.indexStep docId)
             ([], [], [])).2.2 },
       { status := "success".toList
         documents :=
           ((GraphRAG.filesToProcess fs).foldl (GraphRAG.indexStep docId)
             ([], [], [])).1.length
         entities := some
           ((GraphRAG.filesToProcess fs).foldl (GraphRAG.indexStep docId)
             ([], [], [])).2.1.length
         relationships := some
           ((GraphRAG.filesToProcess fs).foldl (GraphRAG.indexStep docId)
             ([], [], [])).2.2.length }) := by
  cases force with
  | true => simp [GraphRAG.indexCorpus]
  | false =>
    have hdoc : st.documents = [] := h.resolve_left (by simp)
    simp [GraphRAG.indexCorpus, hdoc]

/-- C9: after a rebuilding run of `index_corpus`, every document id in any
value list of the entity index is a key of the documents mapping; the
documents, entities and relationships structures (in-memory and persisted)
are replaced together, independently of the prior state; every stored
entity list is the extraction output for some content, and that extraction
contains `concept:<term>` at most once, and exactly once when the term
occurs in the content (per-document deduplication). -/
theorem index_corpus_entity_invariant (docId : Str → Str)
    (fs : List GraphRAG.FileRec) (st : GraphRAG.IndexerState) (force : Bool)
    (h : force = true ∨ st.documents = []) :
    (∀ pr ∈ (GraphRAG.indexCorpus docId fs st force).1.entities,
      ∀ d ∈ pr.2,
        (GraphRAG.assocLookup d
          (GraphRAG.indexCorpus docId fs st force).1.documents).isSome
          = true) ∧
    ((GraphRAG.indexCorpus docId fs st force).1.savedDocuments =
      (GraphRAG.indexCorpus docId fs st force).1.documents ∧
     (GraphRAG.indexCorpus docId fs st force).1.savedEntities =
      (GraphRAG.indexCorpus docId fs st force).1.entities ∧
     (GraphRAG.indexCorpus docId fs st force).1.savedRelationships =
      (GraphRAG.indexCorpus docId fs st force).1.relationships) ∧
    (∀ st2 : GraphRAG.IndexerState,
      (GraphRAG.indexCorpus docId fs st2 true).1 =
        (GraphRAG.indexCorpus docId fs st force).1) ∧
    (∀ pr ∈ (GraphRAG.indexCorpus docId fs st force).1.documents,
      ∃ c : Str, pr.2.entities = GraphRAG.extractEntities c) ∧
    (∀ text term : Str,
      (GraphRAG.extractEntities text).count ("concept:".toList ++ term)
        ≤ 1) ∧
    (∀ text term : Str, term ∈ GraphRAG.techTerms →
      isSubstr (lowerS term) (lowerS text) = true →
      (GraphRAG.extractEntities text).count ("concept:".toList ++ term)
        = 1) := by
  have hre := indexCorpus_rebuild docId fs st force h
  have hinv := indexFold_inv docId (GraphRAG.filesToProcess fs) ([], [], [])
    (by intro pr hpr; simp at hpr) (by intro pr hpr; simp at hpr)
  refine ⟨?_, ?_, ?_, ?_, extract_concept_count_le, extract_concept_count_eq⟩
  · rw [hre]
    exact hinv.1
  · rw [hre]
    exact ⟨rfl, rfl, rfl⟩
  · intro st2
    rw [indexCorpus_rebuild docId fs st2 true (Or.inl rfl), hre]
  · rw [hre]
    exact hinv.2

/-- C9 witness: the invariant instantiated at a forced rebuild over an
empty filesystem, together with the exactly-once deduplication fact for a
content that repeats the term `CMB` three times. -/
theorem index_corpus_entity_invariant_witness :
    (∀ pr ∈ (GraphRAG.indexCorpus (fun p => p) [] sampleState true).1.entities,
      ∀ d ∈ pr.2,
        (GraphRAG.assocLookup d
          (GraphRAG.indexCorpus (fun p => p) []
            sampleState true).1.documents).isSome = true) ∧
    (GraphRAG.extractEntities "CMB and cmb and CMB data".toList).count
      ("concept:".toList ++ "CMB".toList) = 1 := by
  have h := index_corpus_entity_invariant (fun p => p) [] sampleState true
    (Or.inl rfl)
  exact ⟨h.1, h.2.2.2.2.2 "CMB and cmb and CMB data".toList "CMB".toList
    (by decide) (by decide)⟩

/-! Claim C4. -/

theorem takeWhile_stops (p : Char → Bool) (xs ys : Str)
    (hxs : ∀ x ∈ xs, p x = true)
    (hys : ys = [] ∨ ∃ c cs, ys = c :: cs ∧ p c = false) :
    (xs ++ ys).takeWhile p = xs := by
  induction xs with
  | nil =>
    rcases hys with h | ⟨c, cs, h, hc⟩
    · simp [h]
    · simp [h, List.takeWhile_cons, hc]
  | cons x t ih =>
    have hx : p x = true := hxs x (List.mem_cons_self _ _)
    rw [List.cons_append, List.takeWhile_cons_of_pos hx]
    rw [ih fun y hy => hxs y (List.mem_cons_of_mem _ hy)]

theorem matchIdAt_exact (d1 d2 v post : Str)
    (h1 : d1 ≠ []) (h1d : ∀ c ∈ d1, c.isDigit = true)
    (h2 : d2 ≠ []) (h2d : ∀ c ∈ d2, c.isDigit = true)
    (hv : v = [] ∨ ∃ d3, v = 'v' :: d3 ∧ d3 ≠ [] ∧ ∀ c ∈ d3, c.isDigit = true)
    (hpost : post = [] ∨ ∃ c cs, post = c :: cs ∧ c.isDigit = false ∧ c ≠ 'v') :
    ArxivRag.matchIdAt
      ('a' :: 'b' :: 's' :: '/' :: (d1 ++ '.' :: (d2 ++ (v ++ post)))) =
      some (d1 ++ '.' :: (d2 ++ v)) := by
  have hvpost : v ++ post = [] ∨
      ∃ c cs, v ++ post = c :: cs ∧ Char.isDigit c = false := by
    rcases hv with hv0 | ⟨d3, hveq, _, _⟩
    · rcases hpost with hp0 | ⟨c, cs, hpeq, hcd, _⟩
      · left
        rw [hv0, hp0]
        rfl
      · right
        exact ⟨c, cs, by rw [hv0, hpeq]; rfl, hcd⟩
    · right
      exact ⟨'v', d3 ++ post, by rw [hveq]; simp, by decide⟩
  have htw1 : (d1 ++ '.' :: (d2 ++ (v ++ post))).takeWhile Char.isDigit = d1 :=
    takeWhile_stops Char.isDigit d1 ('.' :: (d2 ++ (v ++ post))) h1d
      (Or.inr ⟨'.', d2 ++ (v ++ post), rfl, by decide⟩)
  have hdrop1 : (d1 ++ '.' :: (d2 ++ (v ++ post))).drop d1.length =
      '.' :: (d2 ++ (v ++ post)) := List.drop_left d1 _
  have htw2 : (d2 ++ (v ++ post)).takeWhile Char.isDigit = d2 :=
    takeWhile_stops Char.isDigit d2 (v ++ post) h2d
      (by
        rcases hvpost with h | ⟨c, cs, heq, hcd⟩
        · left; exact h
        · right; exact ⟨c, cs, heq, hcd⟩)
  have hdrop2 : (d2 ++ (v ++ post)).drop d2.length = v ++ post :=
    List.drop_left d2 _
  have hver : (GraphRAG.matchVersionAt (v ++ post)).1 = v := by
    rcases hv with hv0 | ⟨d3, hveq, hd3ne, hd3d⟩
    · rcases hpost with hp0 | ⟨c, cs, hpeq, _, hcv⟩
      · rw [hv0, hp0]
        rfl
      · rw [hv0, hpeq]
        simp only [List.nil_append, GraphRAG.matchVersionAt]
        rw [if_neg hcv]
    · have htw3 : (d3 ++ post).takeWhile Char.isDigit = d3 :=
        takeWhile_stops Char.isDigit d3 post hd3d
          (by
            rcases hpost with hp0 | ⟨c, cs, hpeq, hcd, _⟩
            · left; exact hp0
            · right; exact ⟨c, cs, hpeq, hcd⟩)
      rw [hveq]
      show (GraphRAG.matchVersionAt ('v' :: (d3 ++ post))).1 = 'v' :: d3
      have hstep : GraphRAG.matchVersionAt ('v' :: (d3 ++ post)) =
          ('v' :: d3, (d3 ++ post).drop d3.length) := by
        simp [GraphRAG.matchVersionAt, htw3, hd3ne]
      rw [hstep]
  have habs : "abs/".toList = ['a', 'b', 's', '/'] := rfl
  unfold ArxivRag.matchIdAt
  rw [habs]
  rw [if_pos (by simp [isPrefixCh])]
  have hdrop : ('a' :: 'b' :: 's' :: '/' ::
      (d1 ++ '.' :: (d2 ++ (v ++ post)))).drop 4 =
      d1 ++ '.' :: (d2 ++ (v ++ post)) := rfl
  simp [hdrop, htw1, hdrop1, htw2, hdrop2, hver, h1, h2, List.append_assoc,
    List.cons_append]

theorem matchIdAt_none_of_not_prefix (s : Str)
    (h : isPrefixCh "abs/".toList s = false) :
    ArxivRag.matchIdAt s = none := by
  unfold ArxivRag.matchIdAt
  rw [h]
  rfl

theorem findArxivId_leftmost (pre rest : Str)
    (hm : ArxivRag.matchIdAt rest ≠ none)
    (hpre : ∀ j, j < pre.length →
      isPrefixCh "abs/".toList ((pre ++ rest).drop j) = false) :
    ArxivRag.findArxivId (pre ++ rest) = ArxivRag.matchIdAt rest := by
  induction pre with
  | nil =>
    cases rest with
    | nil => exact absurd rfl hm
    | cons c cs =>
      obtain ⟨m, hme⟩ := Option.ne_none_iff_exists'.mp hm
      simp only [List.nil_append, ArxivRag.findArxivId, hme]
  | cons c pre2 ih =>
    have h0 : isPrefixCh "abs/".toList (c :: (pre2 ++ rest)) = false := by
      have := hpre 0 (by simp)
      simpa using this
    have hnone : ArxivRag.matchIdAt (c :: (pre2 ++ rest)) = none :=
      matchIdAt_none_of_not_prefix _ h0
    show ArxivRag.findArxivId (c :: (pre2 ++ rest)) = ArxivRag.matchIdAt rest
    rw [ArxivRag.findArxivId, hnone]
    exact ih fun j hj => by
      have := hpre (j + 1) (by simpa using hj)
      simpa using this

theorem parse_arxivId_eq (e : ArxivRag.AEntry) :
    (ArxivRag.parseArxivEntry e).arxivId =
      (match (ArxivRag.scanLinks e.links).2 with
       | some u => if u ≠ [] then ArxivRag.findArxivId u else none
       | none => none) := rfl

theorem parse_doi_eq (e : ArxivRag.AEntry) :
    (ArxivRag.parseArxivEntry e).doi =
      ((ArxivRag.parseArxivEntry e).arxivId).map
        (fun i => "10.48550/arXiv.".toList ++ i) := rfl

theorem scanLinks_fold_snd (links : List ArxivRag.ALink) :
    ∀ (a1 a2 b : Option Str),
      ((links.filter fun l =>
          !(l.linkType = some "application/pdf".toList)).foldl
        ArxivRag.scanLinkStep (a1, b)).2 =
      (links.foldl ArxivRag.scanLinkStep (a2, b)).2 := by
  induction links with
  | nil => intro a1 a2 b; rfl
  | cons l rest ih =>
    intro a1 a2 b
    by_cases hpdf : l.linkType = some "application/pdf".toList
    · have hstep : ArxivRag.scanLinkStep (a2, b) l = (l.href, b) := by
        unfold ArxivRag.scanLinkStep
        rw [if_pos hpdf]
      simp only [List.filter_cons, hpdf, decide_True, Bool.not_true,
        List.foldl_cons, hstep]
      exact ih a1 l.href b
    · by_cases hhtml : l.linkType = some "text/html".toList
      · have hstep : ∀ a : Option Str,
            ArxivRag.scanLinkStep (a, b) l = (a, l.href) := by
          intro a
          unfold ArxivRag.scanLinkStep
          rw [if_neg hpdf, if_pos hhtml]
        simp only [List.filter_cons, hpdf, decide_False, Bool.not_false,
          if_true, List.foldl_cons, hstep]
        exact ih a1 a2 l.href
      · have hstep : ∀ a : Option Str,
            ArxivRag.scanLinkStep (a, b) l = (a, b) := by
          intro a
          unfold ArxivRag.scanLinkStep
          rw [if_neg hpdf, if_neg hhtml]
        simp only [List.filter_cons, hpdf, decide_False, Bool.not_false,
          if_true, List.foldl_cons, hstep]
        exact ih a1 a2 b

theorem scanLinks_snd_filter_pdf (links : List ArxivRag.ALink) :
    (ArxivRag.scanLinks (links.filter fun l =>
      !(l.linkType = some "application/pdf".toList))).2 =
    (ArxivRag.scanLinks links).2 := by
  unfold ArxivRag.scanLinks
  exact scanLinks_fold_snd links none none none

/-- C4: when the abstract-page link holds a segment `abs/<id>` (id of the
form digits, dot, digits, optional version suffix, at the first `abs/`
position, not extended by what follows), the parsed DOI is exactly
`10.48550/arXiv.<id>`; when no id is recovered the DOI is `none`, never an
empty or guessed string; and the DOI is computed from the abstract-page
link only — removing every `application/pdf` link leaves it unchanged. -/
theorem arxiv_doi_spec :
    (∀ (e : ArxivRag.AEntry) (pre d1 d2 v post : Str),
      (ArxivRag.scanLinks e.links).2 =
        some (pre ++ 'a' :: 'b' :: 's' :: '/' ::
          (d1 ++ '.' :: (d2 ++ (v ++ post)))) →
      d1 ≠ [] → (∀ c ∈ d1, c.isDigit = true) →
      d2 ≠ [] → (∀ c ∈ d2, c.isDigit = true) →
      (v = [] ∨ ∃ d3, v = 'v' :: d3 ∧ d3 ≠ [] ∧ ∀ c ∈ d3, c.isDigit = true) →
      (post = [] ∨ ∃ c cs, post = c :: cs ∧ c.isDigit = false ∧ c ≠ 'v') →
      (∀ j, j < pre.length →
        isPrefixCh "abs/".toList
          ((pre ++ 'a' :: 'b' :: 's' :: '/' ::
            (d1 ++ '.' :: (d2 ++ (v ++ post)))).drop j) = false) →
      (ArxivRag.parseArxivEntry e).arxivId = some (d1 ++ '.' :: (d2 ++ v)) ∧
      (ArxivRag.parseArxivEntry e).doi =
        some ("10.48550/arXiv.".toList ++ (d1 ++ '.' :: (d2 ++ v)))) ∧
    (∀ e : ArxivRag.AEntry, (ArxivRag.parseArxivEntry e).arxivId = none →
      (ArxivRag.parseArxivEntry e).doi = none) ∧
    (∀ (e : ArxivRag.AEntry) (d : Str),
      (ArxivRag.parseArxivEntry e).doi = some d →
      d ≠ [] ∧ ∃ id, (ArxivRag.parseArxivEntry e).arxivId = some id ∧
        d = "10.48550/arXiv.".toList ++ id) ∧
    (∀ e : ArxivRag.AEntry,
      (ArxivRag.parseArxivEntry { e with links := e.links.filter fun l =>
        !(l.linkType = some "application/pdf".toList) }).doi =
      (ArxivRag.parseArxivEntry e).doi) := by
  refine ⟨?_, ?_, ?_, ?_⟩
  · intro e pre d1 d2 v post hurl h1 h1d h2 h2d hv hpost hpre
    have hm := matchIdAt_exact d1 d2 v post h1 h1d h2 h2d hv hpost
    have hne : pre ++ 'a' :: 'b' :: 's' :: '/' ::
        (d1 ++ '.' :: (d2 ++ (v ++ post))) ≠ [] := by
      cases pre <;> simp
    have hfind : ArxivRag.findArxivId
        (pre ++ 'a' :: 'b' :: 's' :: '/' ::
          (d1 ++ '.' :: (d2 ++ (v ++ post)))) =
        some (d1 ++ '.' :: (d2 ++ v)) := by
      rw [findArxivId_leftmost pre _ (by rw [hm]; simp) hpre, hm]
    have hid : (ArxivRag.parseArxivEntry e).arxivId =
        some (d1 ++ '.' :: (d2 ++ v)) := by
      rw [parse_arxivId_eq, hurl]
      show (if (pre ++ 'a' :: 'b' :: 's' :: '/' ::
          (d1 ++ '.' :: (d2 ++ (v ++ post)))) ≠ [] then
          ArxivRag.findArxivId (pre ++ 'a' :: 'b' :: 's' :: '/' ::
            (d1 ++ '.' :: (d2 ++ (v ++ post))))
        else none) = some (d1 ++ '.' :: (d2 ++ v))
      rw [if_pos hne, hfind]
    refine ⟨hid, ?_⟩
    rw [parse_doi_eq, hid]
    rfl
  · intro e h
    rw [parse_doi_eq, h]
    rfl
  · intro e d h
    rw [parse_doi_eq] at h
    obtain ⟨id, hid, heq⟩ := Option.map_eq_some'.mp h
    refine ⟨?_, id, hid, heq.symm⟩
    rw [← heq]
    have hcons : "10.48550/arXiv.".toList =
        '1' :: "0.48550/arXiv.".toList := rfl
    rw [hcons]
    simp
  · intro e
    rw [parse_doi_eq, parse_doi_eq, parse_arxivId_eq, parse_arxivId_eq]
    have hlinks : ({ e with links := e.links.filter fun l =>
        !(l.linkType = some "application/pdf".toList) } :
          ArxivRag.AEntry).links =
        e.links.filter fun l =>
          !(l.linkType = some "application/pdf".toList) := rfl
    rw [hlinks, scanLinks_snd_filter_pdf]

/-- C4 witness: the sample entry with abstract link
`http://arxiv.org/abs/2301.00001` yields exactly the DOI
`10.48550/arXiv.2301.00001`, also after dropping its PDF link. -/
theorem arxiv_doi_spec_witness :
    (ArxivRag.parseArxivEntry sampleEntry).arxivId =
      some "2301.00001".toList ∧
    (ArxivRag.parseArxivEntry sampleEntry).doi =
      some "10.48550/arXiv.2301.00001".toList ∧
    (ArxivRag.parseArxivEntry { sampleEntry with
      links := sampleEntry.links.filter fun l =>
        !(l.linkType = some "application/pdf".toList) }).doi =
      (ArxivRag.parseArxivEntry sampleEntry).doi := by
  have h := arxiv_doi_spec.1 sampleEntry "http://arxiv.org/".toList
    "2301".toList "00001".toList [] [] (by decide) (by decide) (by decide)
    (by decide) (by decide) (Or.inl rfl) (Or.inl rfl) (by decide)
  refine ⟨?_, ?_, arxiv_doi_spec.2.2.2 sampleEntry⟩
  · rw [h.1]
    rfl
  · rw [h.2]
    rfl

/-! Claim C2. -/

theorem mem_dedupFirst (y : Str) (l : List Str) :
    y ∈ dedupFirst l ↔ y ∈ l := by
  induction l with
  | nil => simp [dedupFirst]
  | cons x xs ih =>
    by_cases hyx : y = x
    · simp [dedupFirst, hyx]
    · simp [dedupFirst, hyx, List.mem_filter, ih]

theorem nodup_dedupFirst (l : List Str) : (dedupFirst l).Nodup := by
  induction l with
  | nil => simp [dedupFirst]
  | cons x xs ih =>
    refine List.Nodup.cons ?_ (List.Nodup.filter _ ih)
    simp [List.mem_filter]

theorem mem_relPairs_mem (a b : Str) (l : List Str)
    (h : (a, b) ∈ GraphRAG.relPairs l) : a ∈ l ∧ b ∈ l := by
  induction l with
  | nil => simp [GraphRAG.relPairs] at h
  | cons e rest ih =>
    rw [GraphRAG.relPairs] at h
    rcases List.mem_append.mp h with h2 | h2
    · obtain ⟨e2, he2, heq⟩ := List.mem_map.mp h2
      obtain ⟨ha, hb⟩ := Prod.mk.injEq .. ▸ heq
      constructor
      · rw [← ha]
        exact List.mem_cons_self _ _
      · rw [← hb]
        exact List.mem_cons_of_mem _ he2
    · obtain ⟨ha, hb⟩ := ih h2
      exact ⟨List.mem_cons_of_mem _ ha, List.mem_cons_of_mem _ hb⟩

theorem mem_relPairs_ne (a b : Str) (l : List Str) (hnd : l.Nodup)
    (h : (a, b) ∈ GraphRAG.relPairs l) : a ≠ b := by
  induction l with
  | nil => simp [GraphRAG.relPairs] at h
  | cons e rest ih =>
    rw [GraphRAG.relPairs] at h
    rcases List.mem_append.mp h with h2 | h2
    · obtain ⟨e2, he2, heq⟩ := List.mem_map.mp h2
      obtain ⟨ha, hb⟩ := Prod.mk.injEq .. ▸ heq
      intro hab
      apply (List.nodup_cons.mp hnd).1
      rw [ha, hab, ← hb]
      exact he2
    · exact ih (List.nodup_cons.mp hnd).2 h2

theorem relPairs_complete (a b : Str) (l : List Str) (ha : a ∈ l) (hb : b ∈ l)
    (hne : a ≠ b) :
    (a, b) ∈ GraphRAG.relPairs l ∨ (b, a) ∈ GraphRAG.relPairs l := by
  induction l with
  | nil => simp at ha
  | cons e rest ih =>
    rw [GraphRAG.relPairs]
    by_cases hae : a = e
    · left
      have hbr : b ∈ rest := by
        rcases List.mem_cons.mp hb with h | h
        · exact absurd (by rw [hae, h]) hne
        · exact h
      exact List.mem_append.mpr (Or.inl (List.mem_map.mpr ⟨b, hbr, by rw [hae]⟩))
    · by_cases hbe : b = e
      · right
        have har : a ∈ rest := by
          rcases List.mem_cons.mp ha with h | h
          · exact absurd (h.trans hbe.symm) hne
          · exact h
        exact List.mem_append.mpr
          (Or.inl (List.mem_map.mpr ⟨a, har, by rw [hbe]⟩))
      · have har : a ∈ rest := (List.mem_cons.mp ha).resolve_left hae
        have hbr : b ∈ rest := (List.mem_cons.mp hb).resolve_left hbe
        rcases ih har hbr with h | h
        · exact Or.inl (List.mem_append.mpr (Or.inr h))
        · exact Or.inr (List.mem_append.mpr (Or.inr h))

theorem entitiesCoOccur_iff (text a b : Str) :
    GraphRAG.entitiesCoOccur text a b = true ↔ coOccursAmended text a b := by
  unfold GraphRAG.entitiesCoOccur coOccursAmended
  simp [List.any_eq_true, List.mem_range]

/-- C2 amended: a relationship `{source, target, co_occurs_with, 1.0}` is
recorded for an ordered pair of distinct extracted entities exactly when
their terms co-occur in one sentence, or in a window `text[i:i+100]` with
`i < len(text) - 100`; the scan never uses the final window and scans no
window at all when the text has at most 100 characters. -/
theorem extract_relationships_amended (text : Str) :
    (∀ r ∈ GraphRAG.extractRelationships text (GraphRAG.extractEntities text),
      r.rtype = "co_occurs_with".toList ∧ r.strength = 1 ∧
      r.source ∈ GraphRAG.extractEntities text ∧
      r.target ∈ GraphRAG.extractEntities text ∧
      r.source ≠ r.target ∧ coOccursAmended text r.source r.target) ∧
    (∀ a b : Str, a ∈ GraphRAG.extractEntities text →
      b ∈ GraphRAG.extractEntities text → a ≠ b →
      coOccursAmended text a b →
      ∃ r ∈ GraphRAG.extractRelationships text (GraphRAG.extractEntities text),
        (r.source = a ∧ r.target = b) ∨ (r.source = b ∧ r.target = a)) := by
  have hnd : (GraphRAG.extractEntities text).Nodup := by
    unfold GraphRAG.extractEntities
    exact nodup_dedupFirst _
  constructor
  · intro r hr
    obtain ⟨p, hp, hcond⟩ := List.mem_filterMap.mp hr
    by_cases hco : GraphRAG.entitiesCoOccur text p.1 p.2
    · rw [if_pos hco, Option.some_inj] at hcond
      obtain ⟨hmem1, hmem2⟩ := mem_relPairs_mem p.1 p.2 _ hp
      have hne := mem_relPairs_ne p.1 p.2 _ hnd hp
      rw [← hcond]
      exact ⟨rfl, rfl, hmem1, hmem2, hne, (entitiesCoOccur_iff text p.1 p.2).mp hco⟩
    · rw [if_neg hco] at hcond
      exact absurd hcond (by simp)
  · intro a b ha hb hne hco
    have hcob : GraphRAG.entitiesCoOccur text a b = true :=
      (entitiesCoOccur_iff text a b).mpr hco
    rcases relPairs_complete a b _ ha hb hne with h | h
    · refine ⟨⟨a, b, "co_occurs_with".toList, 1⟩, ?_, Or.inl ⟨rfl, rfl⟩⟩
      exact List.mem_filterMap.mpr ⟨(a, b), h, by rw [if_pos hcob]⟩
    · have hcob2 : GraphRAG.entitiesCoOccur text b a = true := by
        apply (entitiesCoOccur_iff text b a).mpr
        rcases hco with ⟨s, hs, hx, hy⟩ | ⟨i, hi, hx, hy⟩
        · exact Or.inl ⟨s, hs, hy, hx⟩
        · exact Or.inr ⟨i, hi, hy, hx⟩
      refine ⟨⟨b, a, "co_occurs_with".toList, 1⟩, ?_, Or.inr ⟨rfl, rfl⟩⟩
      exact List.mem_filterMap.mpr ⟨(b, a), h, by rw [if_pos hcob2]⟩

/-- C2 counterexample: in the 102-character text `cexText` the terms `CMB`
and `inflation` lie together inside the final 100-character window (window
start 2), and in no single sentence, so the claim requires a recorded
relationship; the code records none, because the window scan stops before
the final window. -/
theorem cooccur_window_counterexample :
    cmbEnt ∈ GraphRAG.extractEntities cexText ∧
    inflEnt ∈ GraphRAG.extractEntities cexText ∧
    cmbEnt ≠ inflEnt ∧
    (∃ i, i + 100 ≤ cexText.length ∧
      isSubstr (lowerS (GraphRAG.entityTerm cmbEnt))
        (lowerS ((cexText.drop i).take 100)) = true ∧
      isSubstr (lowerS (GraphRAG.entityTerm inflEnt))
        (lowerS ((cexText.drop i).take 100)) = true) ∧
    GraphRAG.extractRelationships cexText (GraphRAG.extractEntities cexText) =
      [] := by
  refine ⟨by decide, by decide, by decide, ⟨2, by decide, by decide, by decide⟩,
    by decide⟩

/-- C2 witness: in the text `CMB Planck` the two concept entities co-occur
in one sentence and a `co_occurs_with` relationship is recorded for the
pair. -/
theorem extract_relationships_amended_witness :
    ∃ r ∈ GraphRAG.extractRelationships "CMB Planck".toList
      (GraphRAG.extractEntities "CMB Planck".toList),
      (r.source = "concept:Planck".toList ∧
       r.target = "concept:CMB".toList) ∨
      (r.source = "concept:CMB".toList ∧
       r.target = "concept:Planck".toList) := by
  have hco : coOccursAmended "CMB Planck".toList "concept:Planck".toList
      "concept:CMB".toList :=
    Or.inl ⟨"CMB Planck".toList, by decide, by decide, by decide⟩
  exact (extract_relationships_amended "CMB Planck".toList).2
    "concept:Planck".toList "concept:CMB".toList (by decide) (by decide)
    (by decide) hco
